import Mathlib

/-!
Shallow embedding of the WebGPU template's host-side core and proofs about
it: the struct layout engine (src/wgsl.ts), the shader include pass and the
shader-module creation helpers (src/utils.ts and the workshop utils
variant), the workgroup-count derivation (src/render.ts and the examples),
and the two-phase alternating scheduler together with the wormlike-chain
update gate (src/simulate.ts, examples/wormlike-chain/shaders/compute.wgsl).
-/

namespace Wgsl

/-- A JavaScript number restricted to the values reachable inside the
layout engine: a nonnegative integer, or `NaN`.  `NaN` arises from
`roundUp` when the alignment is `0` (`Math.ceil(v / 0) * 0` is `NaN`,
both for `v > 0` via `Infinity * 0` and for `v = 0` via `0 / 0`), and it
propagates through `+` and `*`. -/
inductive JsNum where
  | nan : JsNum
  | num : Nat → JsNum
deriving DecidableEq, Repr

/-- JavaScript `+` on the numbers of `JsNum`; `NaN` propagates. -/
def JsNum.add : JsNum → JsNum → JsNum
  | JsNum.num a, JsNum.num b => JsNum.num (a + b)
  | _, _ => JsNum.nan

/-- JavaScript `*` on the numbers of `JsNum`; `NaN` propagates. -/
def JsNum.mul : JsNum → JsNum → JsNum
  | JsNum.num a, JsNum.num b => JsNum.num (a * b)
  | _, _ => JsNum.nan

/-- `roundUp` from src/wgsl.ts, `Math.ceil(value / alignment) * alignment`,
for a positive alignment: over the naturals,
`⌈value / alignment⌉ = (value + alignment - 1) / alignment`. -/
def roundUpN (alignment value : Nat) : Nat :=
  ((value + alignment - 1) / alignment) * alignment

/-- `roundUp` from src/wgsl.ts on JavaScript numbers: a zero alignment
divides by zero and yields `NaN`, and `NaN` propagates. -/
def roundUp (alignment : Nat) (value : JsNum) : JsNum :=
  match value with
  | JsNum.nan => JsNum.nan
  | JsNum.num v => if alignment = 0 then JsNum.nan else JsNum.num (roundUpN alignment v)

/-- The `baseType` tag of a WGSL type descriptor. -/
inductive BaseType where
  | f32 : BaseType
  | u32 : BaseType
  | i32 : BaseType
  | f16 : BaseType
  | bool : BaseType
deriving DecidableEq, Repr

/-- `WgslTypeDescriptor` from src/wgsl.ts. -/
structure WgslTypeDescriptor where
  byteSize : Nat
  alignment : Nat
  name : String
  baseType : BaseType
  componentCount : Nat
  baseTypeSize : Nat
deriving DecidableEq, Repr

/-- WGSL `f32`: 4-byte size, 4-byte alignment. -/
def f32 : WgslTypeDescriptor :=
  { byteSize := 4, alignment := 4, name := "f32", baseType := BaseType.f32
    componentCount := 1, baseTypeSize := 4 }

/-- WGSL `u32`: 4-byte size, 4-byte alignment. -/
def u32 : WgslTypeDescriptor :=
  { byteSize := 4, alignment := 4, name := "u32", baseType := BaseType.u32
    componentCount := 1, baseTypeSize := 4 }

/-- WGSL `i32`: 4-byte size, 4-byte alignment. -/
def i32 : WgslTypeDescriptor :=
  { byteSize := 4, alignment := 4, name := "i32", baseType := BaseType.i32
    componentCount := 1, baseTypeSize := 4 }

/-- WGSL `f16`: 2-byte size, 2-byte alignment. -/
def f16 : WgslTypeDescriptor :=
  { byteSize := 2, alignment := 2, name := "f16", baseType := BaseType.f16
    componentCount := 1, baseTypeSize := 2 }

/-- WGSL `bool`: 4-byte size, 4-byte alignment. -/
def bool : WgslTypeDescriptor :=
  { byteSize := 4, alignment := 4, name := "bool", baseType := BaseType.bool
    componentCount := 1, baseTypeSize := 4 }

/-- `vec` from src/wgsl.ts; the source restricts `n` to 2, 3 or 4 through
its type and branches on `n === 2` for the alignment. -/
def vec (n : Nat) (elementType : WgslTypeDescriptor) : WgslTypeDescriptor :=
  { byteSize := n * elementType.byteSize
    alignment := if n = 2 then 2 * elementType.alignment else 4 * elementType.alignment
    name := "vec" ++ toString n ++ "<" ++ elementType.name ++ ">"
    baseType := elementType.baseType
    componentCount := n
    baseTypeSize := elementType.baseTypeSize }

/-- `vec2` from src/wgsl.ts. -/
def vec2 (elementType : WgslTypeDescriptor) : WgslTypeDescriptor := vec 2 elementType

/-- `vec3` from src/wgsl.ts. -/
def vec3 (elementType : WgslTypeDescriptor) : WgslTypeDescriptor := vec 3 elementType

/-- `vec4` from src/wgsl.ts. -/
def vec4 (elementType : WgslTypeDescriptor) : WgslTypeDescriptor := vec 4 elementType

/-- `mat` from src/wgsl.ts: a matCxR is C columns of type vecR; its inner
`roundUp` is taken at the column alignment `2 * align` or `4 * align`,
which is positive for every descriptor the factories can build, so the
positive-alignment `roundUpN` is exact here. -/
def mat (c r : Nat) (elementType : WgslTypeDescriptor) : WgslTypeDescriptor :=
  let columnType := vec r elementType
  let columnStride := roundUpN columnType.alignment columnType.byteSize
  { byteSize := c * columnStride
    alignment := columnType.alignment
    name := "mat" ++ toString c ++ "x" ++ toString r ++ "<" ++ elementType.name ++ ">"
    baseType := elementType.baseType
    componentCount := c * r
    baseTypeSize := elementType.baseTypeSize }

/-- `mat2x2` from src/wgsl.ts. -/
def mat2x2 (elementType : WgslTypeDescriptor) : WgslTypeDescriptor := mat 2 2 elementType

/-- `mat3x3` from src/wgsl.ts. -/
def mat3x3 (elementType : WgslTypeDescriptor) : WgslTypeDescriptor := mat 3 3 elementType

/-- `mat4x4` from src/wgsl.ts. -/
def mat4x4 (elementType : WgslTypeDescriptor) : WgslTypeDescriptor := mat 4 4 elementType

/-- `array` from src/wgsl.ts: N elements at the element stride
`roundUp(align(T), size(T))`; as in `mat`, the element alignment is
positive for every descriptor the factories can build. -/
def array (elementType : WgslTypeDescriptor) (count : Nat) : WgslTypeDescriptor :=
  let elementStride := roundUpN elementType.alignment elementType.byteSize
  { byteSize := count * elementStride
    alignment := elementType.alignment
    name := "array<" ++ elementType.name ++ ", " ++ toString count ++ ">"
    baseType := elementType.baseType
    componentCount := elementType.componentCount * count
    baseTypeSize := elementType.baseTypeSize }

/-- The loop state of `Struct`'s constructor (src/wgsl.ts lines 259-286):
running offset, running maximum alignment, and the offsets recorded so
far.  A field definition is an ordered association list, mirroring the
insertion order of the definition object's keys. -/
structure LayoutState where
  currentOffset : JsNum
  maxAlignment : Nat
  offsets : List (String × JsNum)
deriving DecidableEq, Repr

/-- One iteration of the field loop in `Struct`'s constructor: update the
maximum alignment, round the running offset up to the field's alignment,
record it, and advance by the field's byte size. -/
def layoutStep (st : LayoutState) (field : String × WgslTypeDescriptor) : LayoutState :=
  let newMax := if st.maxAlignment < field.2.alignment then field.2.alignment else st.maxAlignment
  let offset := roundUp field.2.alignment st.currentOffset
  { currentOffset := offset.add (JsNum.num field.2.byteSize)
    maxAlignment := newMax
    offsets := st.offsets ++ [(field.1, offset)] }

/-- The result of the layout computation in `Struct`'s constructor. -/
structure StructLayout where
  offsets : List (String × JsNum)
  structAlignment : Nat
  byteSize : JsNum
deriving DecidableEq, Repr

/-- Steps 1-5 of `Struct`'s constructor (src/wgsl.ts lines 259-292): field
offsets, struct alignment (`maxAlignment || 1`), and the total size padded
up to the struct alignment. -/
def computeLayout (definition : List (String × WgslTypeDescriptor)) : StructLayout :=
  let final := definition.foldl layoutStep ⟨JsNum.num 0, 0, []⟩
  let structAlignment := if final.maxAlignment = 0 then 1 else final.maxAlignment
  { offsets := final.offsets
    structAlignment := structAlignment
    byteSize := roundUp structAlignment final.currentOffset }

/-- Step 6 of `Struct`'s constructor (src/wgsl.ts lines 294-299): the
requested GPU buffer size is the descriptor's `size` (defaulted to 1 when
absent) times the computed struct byte size. -/
def gpuBufferSize (size : Option Nat) (layout : StructLayout) : JsNum :=
  JsNum.mul (JsNum.num (size.getD 1)) layout.byteSize

/-- Field offsets in the spec's words: each field's offset is the running
offset rounded up to that field's alignment, and the running offset then
advances by the field's byte size.  Returns the offsets in field order
together with the final running offset. -/
def specOffsets : List (String × WgslTypeDescriptor) → Nat → List (String × Nat) × Nat
  | [], running => ([], running)
  | (n, t) :: rest, running =>
    let off := roundUpN t.alignment running
    let result := specOffsets rest (off + t.byteSize)
    ((n, off) :: result.1, result.2)

/-- The maximum field alignment of a definition (the spec's struct
alignment). -/
def maxFieldAlignment (definition : List (String × WgslTypeDescriptor)) : Nat :=
  definition.foldr (fun f m => max f.2.alignment m) 0

/-- The `interactions` example definition from the spec and src/wgsl.ts:
`{position: vec2<f32>, size: f32}`. -/
def interactionsDef : List (String × WgslTypeDescriptor) :=
  [("position", vec2 f32), ("size", f32)]

/-- The `sceneUniforms` example definition from the spec and src/wgsl.ts:
`{worldMatrix: mat4x4<f32>, cameraPos: vec3<f32>, time: f32,
lights: array<vec4<f32>, 4>}`. -/
def sceneUniformsDef : List (String × WgslTypeDescriptor) :=
  [("worldMatrix", mat4x4 f32), ("cameraPos", vec3 f32), ("time", f32),
   ("lights", array (vec4 f32) 4)]

/-- The wormlike-chain `Node` record
(examples/wormlike-chain/shaders/includes/nodes.wgsl), allocated with
`size: NODE_COUNT` in examples/wormlike-chain/index.ts. -/
def nodesDef : List (String × WgslTypeDescriptor) :=
  [("id", u32), ("pass_id", u32), ("position", vec2 f32), ("force", vec2 f32),
   ("tail", u32), ("head", u32)]

end Wgsl

namespace Wgsl

/-- Rounding up to a positive alignment does not decrease the value. -/
theorem le_roundUpN (a v : Nat) (h : 0 < a) : v ≤ roundUpN a v := by
  unfold roundUpN
  have h1 := Nat.div_add_mod' (v + a - 1) a
  have h2 := Nat.mod_lt (v + a - 1) h
  omega

/-- Rounding up to a positive alignment overshoots by less than one
alignment. -/
theorem roundUpN_lt (a v : Nat) (h : 0 < a) : roundUpN a v < v + a := by
  unfold roundUpN
  have h1 := Nat.div_add_mod' (v + a - 1) a
  have h2 := Nat.mod_lt (v + a - 1) h
  omega

/-- The rounded value is a multiple of the alignment. -/
theorem dvd_roundUpN (a v : Nat) : a ∣ roundUpN a v := Dvd.intro_left _ rfl

/-- The constructor's field loop, run from any running offset, maximum
alignment and recorded offsets, computes the spec-described offsets as
long as every field alignment is positive (so no `NaN` arises). -/
theorem foldl_layoutStep (fields : List (String × WgslTypeDescriptor)) :
    ∀ (c m : Nat) (acc : List (String × JsNum)),
      (∀ f ∈ fields, 0 < f.2.alignment) →
      fields.foldl layoutStep ⟨JsNum.num c, m, acc⟩ =
        ⟨JsNum.num (specOffsets fields c).2,
         max m (maxFieldAlignment fields),
         acc ++ (specOffsets fields c).1.map (fun p => (p.1, JsNum.num p.2))⟩ := by
  induction fields with
  | nil => intro c m acc _; simp [specOffsets, maxFieldAlignment]
  | cons f rest ih =>
    intro c m acc h
    obtain ⟨nm, t⟩ := f
    have ht : 0 < t.alignment := h (nm, t) (List.mem_cons_self _ _)
    have hrest : ∀ g ∈ rest, 0 < g.2.alignment := fun g hg => h g (List.mem_cons_of_mem _ hg)
    have hstep : layoutStep ⟨JsNum.num c, m, acc⟩ (nm, t) =
        ⟨JsNum.num (roundUpN t.alignment c + t.byteSize),
         max m t.alignment,
         acc ++ [(nm, JsNum.num (roundUpN t.alignment c))]⟩ := by
      have hmax : (if m < t.alignment then t.alignment else m) = max m t.alignment := by
        split <;> omega
      simp [layoutStep, roundUp, Nat.pos_iff_ne_zero.mp ht, JsNum.add, hmax]
    rw [List.foldl_cons, hstep, ih _ _ _ hrest]
    simp [specOffsets, maxFieldAlignment, Nat.max_assoc, List.append_assoc]

/-- For a definition whose field alignments are positive, the engine's
layout agrees with the spec-side computation (the struct alignment being
the `|| 1` of the maximum field alignment). -/
theorem computeLayout_eq_spec (defn : List (String × WgslTypeDescriptor))
    (hpos : ∀ f ∈ defn, 0 < f.2.alignment) :
    computeLayout defn =
      { offsets := (specOffsets defn 0).1.map (fun p => (p.1, JsNum.num p.2))
        structAlignment := if maxFieldAlignment defn = 0 then 1 else maxFieldAlignment defn
        byteSize := JsNum.num (roundUpN
          (if maxFieldAlignment defn = 0 then 1 else maxFieldAlignment defn)
          (specOffsets defn 0).2) } := by
  unfold computeLayout
  rw [foldl_layoutStep defn 0 0 [] hpos]
  have hz : max 0 (maxFieldAlignment defn) = maxFieldAlignment defn := Nat.zero_max _
  simp only [hz, List.nil_append]
  by_cases hm : maxFieldAlignment defn = 0 <;> simp [hm, roundUp]

/-- A nonempty definition with positively aligned fields has a positive
maximum field alignment. -/
theorem maxFieldAlignment_pos (defn : List (String × WgslTypeDescriptor))
    (hne : defn ≠ []) (hpos : ∀ f ∈ defn, 0 < f.2.alignment) :
    0 < maxFieldAlignment defn := by
  cases defn with
  | nil => exact absurd rfl hne
  | cons f rest =>
    have := hpos f (List.mem_cons_self _ _)
    simp only [maxFieldAlignment, List.foldr_cons]
    omega

/-- Every offset assigned by `specOffsets` is at least the starting
running offset (positive alignments). -/
theorem specOffsets_start_le : ∀ (fields : List (String × WgslTypeDescriptor)) (c : Nat),
    (∀ f ∈ fields, 0 < f.2.alignment) →
    ∀ p ∈ (specOffsets fields c).1, c ≤ p.2 := by
  intro fields
  induction fields with
  | nil => intro c _ p hp; simp [specOffsets] at hp
  | cons f rest ih =>
    intro c h p hp
    obtain ⟨nm, t⟩ := f
    have ht : 0 < t.alignment := h (nm, t) (List.mem_cons_self _ _)
    have hrest : ∀ g ∈ rest, 0 < g.2.alignment := fun g hg => h g (List.mem_cons_of_mem _ hg)
    simp only [specOffsets, List.mem_cons] at hp
    rcases hp with hp | hp
    · rw [hp]; exact le_roundUpN _ _ ht
    · have := ih _ hrest p hp
      have := le_roundUpN t.alignment c ht
      omega

/-- The final running offset of `specOffsets` dominates the start
(positive alignments). -/
theorem le_specOffsets_final : ∀ (fields : List (String × WgslTypeDescriptor)) (c : Nat),
    (∀ f ∈ fields, 0 < f.2.alignment) →
    c ≤ (specOffsets fields c).2 := by
  intro fields
  induction fields with
  | nil => intro c _; simp [specOffsets]
  | cons f rest ih =>
    intro c h
    obtain ⟨nm, t⟩ := f
    have ht : 0 < t.alignment := h (nm, t) (List.mem_cons_self _ _)
    have hrest : ∀ g ∈ rest, 0 < g.2.alignment := fun g hg => h g (List.mem_cons_of_mem _ hg)
    simp only [specOffsets]
    have h1 := le_roundUpN t.alignment c ht
    have h2 := ih (roundUpN t.alignment c + t.byteSize) hrest
    omega

end Wgsl

namespace Wgsl

/-- Unfolding equation of `specOffsets` on a cons cell. -/
theorem specOffsets_cons (nm : String) (t : WgslTypeDescriptor)
    (rest : List (String × WgslTypeDescriptor)) (c : Nat) :
    specOffsets ((nm, t) :: rest) c =
      ((nm, roundUpN t.alignment c) ::
         (specOffsets rest (roundUpN t.alignment c + t.byteSize)).1,
       (specOffsets rest (roundUpN t.alignment c + t.byteSize)).2) := rfl

/-- `specOffsets` assigns one offset per field. -/
theorem specOffsets_length (fields : List (String × WgslTypeDescriptor)) :
    ∀ c : Nat, (specOffsets fields c).1.length = fields.length := by
  induction fields with
  | nil => intro c; rfl
  | cons f rest ih =>
    intro c
    obtain ⟨nm, t⟩ := f
    simp [specOffsets_cons, ih]

/-- An in-bounds `getD` is a member of the list. -/
theorem getD_mem {α : Type} (l : List α) (j : Nat) (d : α) (h : j < l.length) :
    l.getD j d ∈ l := by
  induction l generalizing j with
  | nil => simp at h
  | cons x xs ih =>
    cases j with
    | zero => simp
    | succ j' =>
      simp only [List.getD_cons_succ]
      exact List.mem_cons_of_mem _ (ih j' (by simpa using h))

/-- Fields are laid out in order: an earlier field's byte range ends no
later than a later field's offset (positive alignments). -/
theorem specOffsets_ordered : ∀ (fields : List (String × WgslTypeDescriptor)) (c : Nat),
    (∀ f ∈ fields, 0 < f.2.alignment) →
    ∀ i j, i < j → j < fields.length →
      ((specOffsets fields c).1.getD i ("", 0)).2 + (fields.getD i ("", f32)).2.byteSize ≤
        ((specOffsets fields c).1.getD j ("", 0)).2 := by
  intro fields
  induction fields with
  | nil => intro c _ i j _ hj; simp at hj
  | cons f rest ih =>
    intro c h i j hij hj
    obtain ⟨nm, t⟩ := f
    have ht : 0 < t.alignment := h (nm, t) (List.mem_cons_self _ _)
    have hrest : ∀ g ∈ rest, 0 < g.2.alignment := fun g hg => h g (List.mem_cons_of_mem _ hg)
    cases i with
    | zero =>
      cases j with
      | zero => omega
      | succ j' =>
        simp only [specOffsets_cons, List.getD_cons_zero, List.getD_cons_succ,
          List.length_cons] at *
        have hmem : (specOffsets rest (roundUpN t.alignment c + t.byteSize)).1.getD j' ("", 0) ∈
            (specOffsets rest (roundUpN t.alignment c + t.byteSize)).1 :=
          getD_mem _ _ _ (by rw [specOffsets_length]; omega)
        exact specOffsets_start_le rest _ hrest _ hmem
    | succ i' =>
      cases j with
      | zero => omega
      | succ j' =>
        simp only [specOffsets_cons, List.getD_cons_succ, List.length_cons] at *
        exact ih _ hrest i' j' (by omega) (by omega)

/-- Every field's byte range ends no later than the final running offset
(positive alignments). -/
theorem specOffsets_final_ge : ∀ (fields : List (String × WgslTypeDescriptor)) (c : Nat),
    (∀ f ∈ fields, 0 < f.2.alignment) →
    ∀ i, i < fields.length →
      ((specOffsets fields c).1.getD i ("", 0)).2 + (fields.getD i ("", f32)).2.byteSize ≤
        (specOffsets fields c).2 := by
  intro fields
  induction fields with
  | nil => intro c _ i hi; simp at hi
  | cons f rest ih =>
    intro c h i hi
    obtain ⟨nm, t⟩ := f
    have hrest : ∀ g ∈ rest, 0 < g.2.alignment := fun g hg => h g (List.mem_cons_of_mem _ hg)
    cases i with
    | zero =>
      simp only [specOffsets_cons, List.getD_cons_zero]
      exact le_specOffsets_final rest _ hrest
    | succ i' =>
      simp only [specOffsets_cons, List.getD_cons_succ, List.length_cons] at *
      exact ih _ hrest i' (by omega)

/-- Each field's offset is a multiple of its alignment. -/
theorem specOffsets_dvd : ∀ (fields : List (String × WgslTypeDescriptor)) (c : Nat),
    ∀ i, i < fields.length →
      (fields.getD i ("", f32)).2.alignment ∣ ((specOffsets fields c).1.getD i ("", 0)).2 := by
  intro fields
  induction fields with
  | nil => intro c i hi; simp at hi
  | cons f rest ih =>
    intro c i hi
    obtain ⟨nm, t⟩ := f
    cases i with
    | zero => simpa [specOffsets_cons] using dvd_roundUpN t.alignment c
    | succ i' =>
      simp only [specOffsets_cons, List.getD_cons_succ, List.length_cons] at *
      exact ih _ i' (by omega)

end Wgsl

namespace Wgsl

/-- A field descriptor with zero alignment, representable in the source's
`WgslTypeDescriptor` interface but not produced by any factory. -/
def zeroAlignDesc : WgslTypeDescriptor :=
  { byteSize := 4, alignment := 0, name := "zero-align", baseType := BaseType.f32
    componentCount := 1, baseTypeSize := 4 }

/-- The descriptors of the five scalar WGSL base types. -/
def IsScalarDesc (t : WgslTypeDescriptor) : Prop :=
  t = f32 ∨ t = u32 ∨ t = i32 ∨ t = f16 ∨ t = bool

end Wgsl

open Wgsl in
/-- C1 (amended): for every nonempty ordered list of typed fields with
positive alignments, the engine assigns each field's offset as the running
offset rounded up to that field's alignment, takes the struct's alignment
as the maximum field alignment (an empty field list instead gets struct
alignment 1), and takes the total byte size as the final running offset
rounded up to the struct's alignment; the field list
{position: vec2<f32>, size: f32} yields offsets {position: 0, size: 8}
with total size 16, and {worldMatrix: mat4x4<f32>, cameraPos: vec3<f32>,
time: f32, lights: array<vec4<f32>, 4>} yields offsets {worldMatrix: 0,
cameraPos: 64, time: 76, lights: 80} with total size 144. -/
theorem c1_layout_algorithm :
    (∀ defn : List (String × WgslTypeDescriptor),
      (∀ f ∈ defn, 0 < f.2.alignment) → defn ≠ [] →
      (computeLayout defn).offsets =
        (specOffsets defn 0).1.map (fun p => (p.1, JsNum.num p.2)) ∧
      (computeLayout defn).structAlignment = maxFieldAlignment defn ∧
      (computeLayout defn).byteSize =
        JsNum.num (roundUpN (maxFieldAlignment defn) (specOffsets defn 0).2)) ∧
    computeLayout interactionsDef =
      ⟨[("position", JsNum.num 0), ("size", JsNum.num 8)], 8, JsNum.num 16⟩ ∧
    computeLayout sceneUniformsDef =
      ⟨[("worldMatrix", JsNum.num 0), ("cameraPos", JsNum.num 64), ("time", JsNum.num 76),
        ("lights", JsNum.num 80)], 16, JsNum.num 144⟩ := by
  refine ⟨?_, by decide, by decide⟩
  intro defn hpos hne
  have hmax := maxFieldAlignment_pos defn hne hpos
  rw [computeLayout_eq_spec defn hpos]
  simp [Nat.pos_iff_ne_zero.mp hmax]

open Wgsl in
/-- C1, counterexample to the claim as stated: on the empty field list the
engine's struct alignment is 1 (`maxAlignment || 1`), not the maximum
field alignment 0. -/
theorem c1_layout_algorithm_counterexample :
    (computeLayout []).structAlignment ≠
      maxFieldAlignment ([] : List (String × WgslTypeDescriptor)) ∧
    (computeLayout []).structAlignment = 1 ∧
    maxFieldAlignment ([] : List (String × WgslTypeDescriptor)) = 0 := by
  exact ⟨by decide, rfl, rfl⟩

open Wgsl in
/-- C1, witness: the amended theorem applied to the wormlike-chain node
definition. -/
theorem c1_layout_algorithm_witness :
    (∀ f ∈ nodesDef, 0 < f.2.alignment) ∧ nodesDef ≠ [] ∧
    (computeLayout nodesDef).structAlignment = maxFieldAlignment nodesDef := by
  have h : ∀ f ∈ nodesDef, 0 < f.2.alignment := by decide
  have hne : nodesDef ≠ [] := by decide
  exact ⟨h, hne, (c1_layout_algorithm.1 nodesDef h hne).2.1⟩

open Wgsl in
/-- C2: for every ordered list of typed fields with positive sizes and
alignments, the computed layout satisfies: each offset is a multiple of
its field's alignment, the byte ranges of two distinct fields are
disjoint, and the total size is a multiple of the struct alignment. -/
theorem c2_layout_invariants :
    ∀ defn : List (String × WgslTypeDescriptor),
      (∀ f ∈ defn, 0 < f.2.alignment ∧ 0 < f.2.byteSize) →
      (computeLayout defn).offsets =
        (specOffsets defn 0).1.map (fun p => (p.1, JsNum.num p.2)) ∧
      (∀ i, i < defn.length →
        (defn.getD i ("", f32)).2.alignment ∣ ((specOffsets defn 0).1.getD i ("", 0)).2) ∧
      (∀ i j, i < defn.length → j < defn.length → i ≠ j → ∀ x : Nat,
        ¬((((specOffsets defn 0).1.getD i ("", 0)).2 ≤ x ∧
            x < ((specOffsets defn 0).1.getD i ("", 0)).2 +
              (defn.getD i ("", f32)).2.byteSize) ∧
          (((specOffsets defn 0).1.getD j ("", 0)).2 ≤ x ∧
            x < ((specOffsets defn 0).1.getD j ("", 0)).2 +
              (defn.getD j ("", f32)).2.byteSize))) ∧
      ∃ size : Nat, (computeLayout defn).byteSize = JsNum.num size ∧
        (computeLayout defn).structAlignment ∣ size := by
  intro defn h
  have hpos : ∀ f ∈ defn, 0 < f.2.alignment := fun f hf => (h f hf).1
  refine ⟨?_, fun i hi => specOffsets_dvd defn 0 i hi, ?_, ?_⟩
  · rw [computeLayout_eq_spec defn hpos]
  · intro i j hi hj hne x hx
    rcases hx with ⟨⟨hx1, hx2⟩, hx3, hx4⟩
    rcases Nat.lt_or_ge i j with hij | hij
    · have := specOffsets_ordered defn 0 hpos i j hij hj
      omega
    · have := specOffsets_ordered defn 0 hpos j i (by omega) hi
      omega
  · rw [computeLayout_eq_spec defn hpos]
    exact ⟨_, rfl, dvd_roundUpN _ _⟩

open Wgsl in
/-- C2, witness: the invariants instantiated on the scene-uniforms
definition; the disjointness of the cameraPos and time ranges is read off
at the concrete index pair (1, 2). -/
theorem c2_layout_invariants_witness :
    (∀ f ∈ sceneUniformsDef, 0 < f.2.alignment ∧ 0 < f.2.byteSize) ∧
    (computeLayout sceneUniformsDef).offsets =
      (specOffsets sceneUniformsDef 0).1.map (fun p => (p.1, JsNum.num p.2)) ∧
    ¬((((specOffsets sceneUniformsDef 0).1.getD 1 ("", 0)).2 ≤ 70 ∧
        70 < ((specOffsets sceneUniformsDef 0).1.getD 1 ("", 0)).2 +
          (sceneUniformsDef.getD 1 ("", f32)).2.byteSize) ∧
      (((specOffsets sceneUniformsDef 0).1.getD 2 ("", 0)).2 ≤ 70 ∧
        70 < ((specOffsets sceneUniformsDef 0).1.getD 2 ("", 0)).2 +
          (sceneUniformsDef.getD 2 ("", f32)).2.byteSize)) := by
  have h : ∀ f ∈ sceneUniformsDef, 0 < f.2.alignment ∧ 0 < f.2.byteSize := by decide
  obtain ⟨h1, _, h3, _⟩ := c2_layout_invariants sceneUniformsDef h
  exact ⟨h, h1, h3 1 2 (by decide) (by decide) (by decide) 70⟩

open Wgsl in
/-- C3: for every scalar base descriptor T, a 2-wide vector has alignment
2·align(T) and size 2·size(T); 3- and 4-wide vectors have alignment
4·align(T) (so vec3 and vec4 share an alignment while vec3's size is
3·size(T)); a CxR matrix has its column vector's alignment and size
C · roundUp(column alignment, column size); a fixed array of N elements
has its element's alignment and size N · roundUp(element alignment,
element size). -/
theorem c3_composite_descriptors :
    ∀ t : WgslTypeDescriptor, IsScalarDesc t →
      ((vec 2 t).alignment = 2 * t.alignment ∧ (vec 2 t).byteSize = 2 * t.byteSize) ∧
      (∀ n, n = 3 ∨ n = 4 →
        (vec n t).alignment = 4 * t.alignment ∧ (vec n t).byteSize = n * t.byteSize) ∧
      ((vec 3 t).alignment = (vec 4 t).alignment ∧ (vec 3 t).byteSize = 3 * t.byteSize) ∧
      (∀ c r, (c = 2 ∨ c = 3 ∨ c = 4) → (r = 2 ∨ r = 3 ∨ r = 4) →
        (mat c r t).alignment = (vec r t).alignment ∧
        (mat c r t).byteSize = c * roundUpN (vec r t).alignment (vec r t).byteSize) ∧
      (∀ (e : WgslTypeDescriptor) (n : Nat),
        (array e n).alignment = e.alignment ∧
        (array e n).byteSize = n * roundUpN e.alignment e.byteSize) := by
  intro t _
  refine ⟨⟨rfl, rfl⟩, ?_, ⟨rfl, rfl⟩, ?_, fun e n => ⟨rfl, rfl⟩⟩
  · rintro n (rfl | rfl) <;> exact ⟨rfl, rfl⟩
  · rintro c r _ _
    exact ⟨rfl, rfl⟩

open Wgsl in
/-- C3, witness: the descriptor algebra at T = f32, including the
non-intuitive vec3/vec4 shared alignment (16 bytes for a 12-byte vec3). -/
theorem c3_composite_descriptors_witness :
    IsScalarDesc f32 ∧
    (vec 3 f32).alignment = (vec 4 f32).alignment ∧
    (vec 3 f32).byteSize = 3 * f32.byteSize := by
  have h : IsScalarDesc f32 := Or.inl rfl
  exact ⟨h, (c3_composite_descriptors f32 h).2.2.1⟩

open Wgsl in
/-- C8: the engine performs no validation of zero alignments or sizes.
With a zero-alignment field the constructor completes and produces a NaN
offset and NaN total size (JavaScript division by zero) instead of
surfacing an error; with a zero-size field it completes and even assigns
the following field an overlapping offset. -/
theorem c8_no_fail_fast :
    computeLayout [("x", zeroAlignDesc)] =
      { offsets := [("x", JsNum.nan)], structAlignment := 1, byteSize := JsNum.nan } ∧
    computeLayout [("y", array f32 0), ("z", f32)] =
      { offsets := [("y", JsNum.num 0), ("z", JsNum.num 0)], structAlignment := 4,
        byteSize := JsNum.num 4 } := by
  exact ⟨by decide, by decide⟩

open Wgsl in
/-- C9: the requested GPU buffer size is the record count (defaulted to 1)
times the struct byte size computed by the layout engine; on the
wormlike-chain node struct (32 bytes) with NODE_COUNT = 70 this is 2240
bytes. -/
theorem c9_buffer_sizing :
    (∀ defn : List (String × WgslTypeDescriptor), (∀ f ∈ defn, 0 < f.2.alignment) →
      ∃ s : Nat, (computeLayout defn).byteSize = JsNum.num s ∧
        (∀ n : Nat, gpuBufferSize (some n) (computeLayout defn) = JsNum.num (n * s)) ∧
        gpuBufferSize none (computeLayout defn) = JsNum.num s) ∧
    (computeLayout nodesDef).byteSize = JsNum.num 32 ∧
    gpuBufferSize (some 70) (computeLayout nodesDef) = JsNum.num 2240 ∧
    gpuBufferSize none (computeLayout nodesDef) = JsNum.num 32 := by
  refine ⟨?_, by decide, by decide, by decide⟩
  intro defn hpos
  rw [computeLayout_eq_spec defn hpos]
  refine ⟨_, rfl, fun n => ?_, ?_⟩ <;> simp [gpuBufferSize, JsNum.mul]

open Wgsl in
/-- C9, witness: the general sizing law applied to the wormlike-chain node
definition. -/
theorem c9_buffer_sizing_witness :
    (∀ f ∈ nodesDef, 0 < f.2.alignment) ∧
    ∃ s : Nat, (computeLayout nodesDef).byteSize = JsNum.num s ∧
      gpuBufferSize (some 70) (computeLayout nodesDef) = JsNum.num (70 * s) := by
  have h : ∀ f ∈ nodesDef, 0 < f.2.alignment := by decide
  obtain ⟨s, hs, hmul, _⟩ := c9_buffer_sizing.1 nodesDef h
  exact ⟨h, s, hs, hmul 70⟩

namespace Render

/-- `Math.ceil(dim / tile)` over positive integers, the per-axis workgroup
count derivation used throughout the repository. -/
def workgroupCount (dim tile : Nat) : Nat := (dim + tile - 1) / tile

/-- `TEXTURE_WORKGROUP_COUNT` from src/render.ts lines 39-42 (and the
analogous `downsampleWorkgroupCount`): 16-pixel tiles on both axes. -/
def TEXTURE_WORKGROUP_COUNT (width height : Nat) : Nat × Nat :=
  (workgroupCount width 16, workgroupCount height 16)

/-- `WORKGROUP_COUNT` from examples/game-of-life/index.ts lines 122-125:
the tile is `Math.sqrt(WORKGROUP_SIZE)` with `WORKGROUP_SIZE = 256`,
which is exactly 16. -/
def WORKGROUP_COUNT (width height : Nat) : Nat × Nat :=
  (workgroupCount width 16, workgroupCount height 16)

end Render

open Render in
/-- C4: for every resource dimension d ≥ 1 and tile size t ≥ 1, the derived
workgroup count equals ceil(d / t): it satisfies count·t ≥ d and
(count−1)·t < d; in particular d = 513 with t = 16 yields 33, not 32. -/
theorem c4_workgroup_ceiling :
    (∀ d t : Nat, 1 ≤ d → 1 ≤ t →
      (workgroupCount d t : ℤ) = ⌈(d : ℚ) / (t : ℚ)⌉ ∧
      d ≤ workgroupCount d t * t ∧
      (workgroupCount d t - 1) * t < d) ∧
    workgroupCount 513 16 = 33 ∧
    TEXTURE_WORKGROUP_COUNT 513 513 = (33, 33) ∧
    WORKGROUP_COUNT 513 513 = (33, 33) := by
  refine ⟨?_, rfl, rfl, rfl⟩
  intro d t hd ht
  have h1 := Nat.div_add_mod' (d + t - 1) t
  have h2 := Nat.mod_lt (d + t - 1) (show 0 < t by omega)
  have hub : d ≤ workgroupCount d t * t := by unfold workgroupCount; omega
  have hsub := Nat.sub_mul ((d + t - 1) / t) 1 t
  have hlb : (workgroupCount d t - 1) * t < d := by unfold workgroupCount; omega
  have hub2 : workgroupCount d t * t < d + t := by unfold workgroupCount; omega
  have htQ : (0 : ℚ) < t := by exact_mod_cast ht
  refine ⟨le_antisymm ?_ ?_, hub, hlb⟩
  · have hlt : ((workgroupCount d t : ℤ) - 1) < ⌈(d : ℚ) / (t : ℚ)⌉ := by
      rw [Int.lt_ceil, lt_div_iff₀ htQ]
      have hub2Q : (workgroupCount d t : ℚ) * (t : ℚ) < (d : ℚ) + (t : ℚ) := by
        exact_mod_cast hub2
      push_cast
      nlinarith [hub2Q]
    omega
  · rw [Int.ceil_le, div_le_iff₀ htQ]
    exact_mod_cast hub

open Render in
/-- C4, witness: the ceiling-division law at d = 513, t = 16. -/
theorem c4_workgroup_ceiling_witness :
    (1 ≤ 513 ∧ 1 ≤ 16) ∧
    513 ≤ workgroupCount 513 16 * 16 ∧ (workgroupCount 513 16 - 1) * 16 < 513 := by
  have h := c4_workgroup_ceiling.1 513 16 (by decide) (by decide)
  exact ⟨⟨by decide, by decide⟩, h.2.1, h.2.2⟩

namespace Utils

/-- The whitespace characters of the `\s` class in the import regex of
src/utils.ts, restricted to ASCII (the only ones shader sources hold). -/
def isWgslWs (c : Char) : Bool :=
  c = ' ' || c = '\t' || c = '\n' || c = '\r' || c = '\x0b' || c = '\x0c'

/-- The `[a-zA-Z0-9_]` character class of the import regex. -/
def isIdentChar (c : Char) : Bool := c.isAlphanum || c = '_'

/-- Match a literal character sequence, returning the remainder. -/
def matchLiteral : List Char → List Char → Option (List Char)
  | [], rest => some rest
  | _, [] => none
  | p :: ps, c :: cs => if c = p then matchLiteral ps cs else none

/-- Try `^#import\s+([a-zA-Z0-9_]+)::([a-zA-Z0-9_]+)` at one line start:
on success return the full matched text, the two captures and the
remaining characters.  The character classes involved do not overlap, so
the regex's greedy quantifiers are plain maximal munch. -/
def matchImportAt (l : List Char) : Option (String × String × String × List Char) :=
  match matchLiteral "#import".toList l with
  | none => none
  | some r1 =>
    let ws := r1.takeWhile isWgslWs
    let r2 := r1.dropWhile isWgslWs
    if ws.isEmpty then none else
    let ns := r2.takeWhile isIdentChar
    let r3 := r2.dropWhile isIdentChar
    if ns.isEmpty then none else
    match matchLiteral "::".toList r3 with
    | none => none
    | some r4 =>
      let md := r4.takeWhile isIdentChar
      let r5 := r4.dropWhile isIdentChar
      if md.isEmpty then none else
      some (("#import".toList ++ ws ++ ns ++ "::".toList ++ md).asString,
            ns.asString, md.asString, r5)

/-- `code.matchAll(importRegex)` with the `g` and `m` flags: attempt the
pattern at every line start, resuming after each match.  `fuel` bounds
the recursion and is instantiated with the text length, which every
branch consumes more slowly than its characters. -/
def scanImports : Nat → List Char → Bool → List (String × String × String)
  | 0, _, _ => []
  | _ + 1, [], _ => []
  | fuel + 1, c :: rest, atStart =>
    if atStart then
      match matchImportAt (c :: rest) with
      | some (full, ns, md, r) => (full, ns, md) :: scanImports fuel r false
      | none => scanImports fuel rest (c = '\n')
    else scanImports fuel rest (c = '\n')

/-- All import directives of a source text, in scan order. -/
def findImports (code : String) : List (String × String × String) :=
  scanImports code.toList.length code.toList true

/-- JavaScript object insertion, `includesToAdd[fullMatch] = content`:
overwrite the existing key or append a new one. -/
def upsert (l : List (String × String)) (k v : String) : List (String × String) :=
  match l with
  | [] => [(k, v)]
  | (k', v') :: rest => if k' = k then (k, v) :: rest else (k', v') :: upsert rest k v

/-- JavaScript `String.prototype.replace` with a string pattern: replace
only the first occurrence (an empty pattern inserts at the start). -/
def replaceFirst (s pattern repl : List Char) : List Char :=
  match s with
  | [] => if pattern = [] then repl else []
  | c :: rest =>
    match matchLiteral pattern (c :: rest) with
    | some r => repl ++ r
    | none => c :: replaceFirst rest pattern repl

/-- The loop body over the matched imports in `prependIncludes`
(src/utils.ts lines 91-97): record the replacement when the namespace is
`includes` and the module name is supplied, otherwise emit
`console.warn("Could not resolve import: " + fullMatch)`. -/
def resolveStep (includes : List (String × String))
    (acc : List (String × String) × List String)
    (imp : String × String × String) : List (String × String) × List String :=
  match (if imp.2.1 = "includes" then List.lookup imp.2.2 includes else none) with
  | some content => (upsert acc.1 imp.1 content, acc.2)
  | none => (acc.1, acc.2 ++ ["Could not resolve import: " ++ imp.1])

/-- `prependIncludes` from src/utils.ts lines 82-105.  The includes
mapping is an association list; the returned pair is the processed code
and the `console.warn` messages the pass emitted. -/
def prependIncludes (code : String) (includes : List (String × String)) :
    String × List String :=
  let imports := findImports code
  let resolved := imports.foldl (resolveStep includes) ([], [])
  (resolved.1.foldl
     (fun c kv => (replaceFirst c.toList kv.1.toList kv.2.toList).asString) code,
   resolved.2)

/-- Unfolding equation: a resolvable import records its replacement. -/
theorem resolveStep_some (includes : List (String × String))
    (acc : List (String × String) × List String) (imp : String × String × String)
    (content : String)
    (h : (if imp.2.1 = "includes" then List.lookup imp.2.2 includes else none) = some content) :
    resolveStep includes acc imp = (upsert acc.1 imp.1 content, acc.2) := by
  unfold resolveStep
  rw [h]

/-- Unfolding equation: an unresolved import only warns. -/
theorem resolveStep_none (includes : List (String × String))
    (acc : List (String × String) × List String) (imp : String × String × String)
    (h : (if imp.2.1 = "includes" then List.lookup imp.2.2 includes else none) = none) :
    resolveStep includes acc imp =
      (acc.1, acc.2 ++ ["Could not resolve import: " ++ imp.1]) := by
  unfold resolveStep
  rw [h]

/-- Warnings already emitted survive the rest of the import loop. -/
theorem foldl_resolveStep_mono (includes : List (String × String)) :
    ∀ (imports : List (String × String × String)) (acc : List (String × String))
      (ws : List String) (x : String), x ∈ ws →
      x ∈ (imports.foldl (resolveStep includes) (acc, ws)).2 := by
  intro imports
  induction imports with
  | nil => intro acc ws x hx; simpa using hx
  | cons imp rest ih =>
    intro acc ws x hx
    rw [List.foldl_cons]
    cases hm : (if imp.2.1 = "includes" then List.lookup imp.2.2 includes else none) with
    | some content =>
      rw [resolveStep_some includes (acc, ws) imp content hm]
      exact ih _ _ _ hx
    | none =>
      rw [resolveStep_none includes (acc, ws) imp hm]
      exact ih _ _ _ (by simp [hx])

/-- Every unresolved import contributes its warning to the loop's
output. -/
theorem foldl_resolveStep_warning (includes : List (String × String)) :
    ∀ (imports : List (String × String × String)) (acc : List (String × String))
      (ws : List String) (full ns md : String),
      (full, ns, md) ∈ imports →
      (if ns = "includes" then List.lookup md includes else none) = none →
      ("Could not resolve import: " ++ full) ∈
        (imports.foldl (resolveStep includes) (acc, ws)).2 := by
  intro imports
  induction imports with
  | nil => intro acc ws full ns md hmem _; simp at hmem
  | cons imp rest ih =>
    intro acc ws full ns md hmem hnone
    rw [List.foldl_cons]
    rcases List.mem_cons.mp hmem with heq | hmem'
    · subst heq
      rw [resolveStep_none includes (acc, ws) (full, ns, md) hnone]
      exact foldl_resolveStep_mono includes rest _ _ _ (by simp)
    · cases hm : (if imp.2.1 = "includes" then List.lookup imp.2.2 includes else none) with
      | some content =>
        rw [resolveStep_some includes (acc, ws) imp content hm]
        exact ih _ _ _ _ _ hmem' hnone
      | none =>
        rw [resolveStep_none includes (acc, ws) imp hm]
        exact ih _ _ _ _ _ hmem' hnone

/-- With an empty includes mapping the loop records no replacement. -/
theorem foldl_resolveStep_empty :
    ∀ (imports : List (String × String × String)) (acc : List (String × String))
      (ws : List String),
      (imports.foldl (resolveStep ([] : List (String × String))) (acc, ws)).1 = acc := by
  intro imports
  induction imports with
  | nil => intro acc ws; rfl
  | cons imp rest ih =>
    intro acc ws
    rw [List.foldl_cons]
    have hm : (if imp.2.1 = "includes" then
        List.lookup imp.2.2 ([] : List (String × String)) else none) = none := by
      split <;> rfl
    rw [resolveStep_none ([] : List (String × String)) (acc, ws) imp hm]
    exact ih _ _

end Utils

open Utils in
/-- C6 (amended): the include pass does not fail on an unresolved import
directive; it logs `Could not resolve import: <directive>` via
`console.warn` and returns with the directive left unsubstituted (with an
empty includes mapping the code is returned verbatim).  The unresolved
reference is therefore skipped with a logged warning, not surfaced as a
fatal error to the caller. -/
theorem c6_unresolved_import_warns :
    (∀ (code : String) (includes : List (String × String)) (full ns md : String),
      (full, ns, md) ∈ findImports code →
      (if ns = "includes" then List.lookup md includes else none) = none →
      ("Could not resolve import: " ++ full) ∈ (prependIncludes code includes).2) ∧
    (∀ code : String, (prependIncludes code []).1 = code) := by
  constructor
  · intro code includes full ns md hmem hnone
    exact foldl_resolveStep_warning includes (findImports code) [] [] full ns md hmem hnone
  · intro code
    show ((findImports code).foldl (resolveStep []) ([], [])).1.foldl _ code = _
    rw [foldl_resolveStep_empty (findImports code) [] []]
    rfl

open Utils in
/-- C6, counterexample to the claim as stated: on a source whose only line
is an import of the unsupplied module `foo`, the pass returns normally —
the output equals the input, the directive is still present, and the only
effect is a logged warning; no fatal error reaches the caller. -/
theorem c6_unresolved_import_counterexample :
    prependIncludes "#import includes::foo" [] =
      ("#import includes::foo", ["Could not resolve import: #import includes::foo"]) := by
  decide

open Utils in
/-- C6, witness: the amended theorem applied to the one-line source with a
nonempty (but non-matching) includes mapping. -/
theorem c6_unresolved_import_warns_witness :
    ("#import includes::foo", "includes", "foo") ∈ findImports "#import includes::foo" ∧
    ("Could not resolve import: " ++ "#import includes::foo") ∈
      (prependIncludes "#import includes::foo" [("bindings", "var x;")]).2 := by
  have hmem : ("#import includes::foo", "includes", "foo") ∈
      findImports "#import includes::foo" := by decide
  refine ⟨hmem, ?_⟩
  exact c6_unresolved_import_warns.1 "#import includes::foo" [("bindings", "var x;")]
    "#import includes::foo" "includes" "foo" hmem (by decide)

namespace Utils

/-- The `type` of a GPUCompilationMessage. -/
inductive MessageKind where
  | error : MessageKind
  | warning : MessageKind
  | info : MessageKind
deriving DecidableEq, Repr

/-- A GPUCompilationMessage as consumed by the two shader helpers. -/
structure CompilationMessage where
  kind : MessageKind
  message : String
  lineNum : Nat
deriving DecidableEq, Repr

/-- `createShader` from src/utils.ts lines 63-80, after the include pass
and `device.createShaderModule`: if the compilation info holds any
message at all, every message is logged with `console.warn` and the
function throws `Could not compile shader`; otherwise the module is
returned.  The result models the promise outcome together with the
console output. -/
def createShader (info : List CompilationMessage) : Except String Unit × List String :=
  if info.length > 0 then
    (Except.error "Could not compile shader",
     info.map (fun m => m.message ++ " \n  at line " ++ toString m.lineNum))
  else (Except.ok (), [])

/-- `createShaderModule` from the workshop utils variant: log an error
line for each error message and a warning line for each other message,
and throw `Shader compilation failed` only when at least one message is
an error. -/
def createShaderModule (info : List CompilationMessage) :
    Except String Unit × List String :=
  let hasErrors := info.any (fun m => m.kind = MessageKind.error)
  let logs := info.map (fun m =>
    if m.kind = MessageKind.error then
      "Shader compilation error at line " ++ toString m.lineNum ++ ": " ++ m.message
    else
      "Shader compilation warning at line " ++ toString m.lineNum ++ ": " ++ m.message)
  if hasErrors then (Except.error "Shader compilation failed", logs)
  else (Except.ok (), logs)

end Utils

open Utils in
/-- C7 (amended): the workshop helper `createShaderModule` returns the
module whenever the compilation info holds no error message (warnings are
only logged) and throws exactly when an error message is present; the
template helper `createShader` in src/utils.ts instead throws whenever
any message at all — warnings included — is present. -/
theorem c7_warnings_do_not_abort :
    (∀ info : List CompilationMessage,
      (∀ m ∈ info, m.kind ≠ MessageKind.error) →
      (createShaderModule info).1 = Except.ok ()) ∧
    (∀ info : List CompilationMessage,
      (∃ m ∈ info, m.kind = MessageKind.error) →
      (createShaderModule info).1 = Except.error "Shader compilation failed") ∧
    (∀ info : List CompilationMessage, info ≠ [] →
      (createShader info).1 = Except.error "Could not compile shader") := by
  refine ⟨?_, ?_, ?_⟩
  · intro info h
    have : info.any (fun m => m.kind = MessageKind.error) = false := by
      rw [List.any_eq_false]
      intro m hm
      simpa using h m hm
    simp [createShaderModule, this]
  · intro info h
    have : info.any (fun m => m.kind = MessageKind.error) = true := by
      rw [List.any_eq_true]
      obtain ⟨m, hm, hk⟩ := h
      exact ⟨m, hm, by simpa using hk⟩
    simp [createShaderModule, this]
  · intro info h
    have : info.length > 0 := List.length_pos.mpr h
    simp [createShader, this]

open Utils in
/-- C7, counterexample to the claim as stated: `createShader` aborts on a
compilation info holding a single warning and no error. -/
theorem c7_warnings_do_not_abort_counterexample :
    (createShader [⟨MessageKind.warning, "unused variable", 3⟩]).1 =
      Except.error "Could not compile shader" ∧
    (createShaderModule [⟨MessageKind.warning, "unused variable", 3⟩]).1 =
      Except.ok () := by
  exact ⟨rfl, rfl⟩

open Utils in
/-- C7, witness: the amended theorem at concrete message lists. -/
theorem c7_warnings_do_not_abort_witness :
    (createShaderModule [⟨MessageKind.warning, "w", 1⟩, ⟨MessageKind.info, "i", 2⟩]).1 =
      Except.ok () ∧
    (createShaderModule [⟨MessageKind.warning, "w", 1⟩, ⟨MessageKind.error, "e", 2⟩]).1 =
      Except.error "Shader compilation failed" ∧
    (createShader [⟨MessageKind.warning, "w", 1⟩]).1 =
      Except.error "Could not compile shader" := by
  obtain ⟨h1, h2, h3⟩ := c7_warnings_do_not_abort
  refine ⟨h1 _ ?_, h2 _ ?_, h3 _ ?_⟩
  · intro m hm
    fin_cases hm <;> decide
  · exact ⟨⟨MessageKind.error, "e", 2⟩, by simp, rfl⟩
  · decide

namespace Chain

/-- The wormlike-chain `Node` record
(examples/wormlike-chain/shaders/includes/nodes.wgsl).  `α` abstracts the
floating-point `vec2<f32>` payloads (position, force), which no fact
proved here inspects. -/
structure Node (α : Type) where
  id : Nat
  pass_id : Nat
  position : α
  force : α
  tail : Nat
  head : Nat
deriving DecidableEq, Repr

/-- `is_disconnected` from the nodes include: both neighbor references are
the sentinel self-reference. -/
def is_disconnected {α : Type} (n : Node α) : Bool :=
  n.tail == n.id && n.head == n.id

/-- `has_connection` from the nodes include. -/
def has_connection {α : Type} (n : Node α) : Bool :=
  n.tail != n.id || n.head != n.id

/-- The guard of `line_constraint_update` (compute.wgsl line 28): the
thread for `idx` reaches its position write iff this is true.  Threads
whose index is outside the buffer are modeled as not writing (the
`idx >= arrayLength` disjunct). -/
def lineConstraintWrites {α : Type} (nodes : List (Node α)) (passId idx : Nat) : Bool :=
  match nodes.get? idx with
  | none => false
  | some node =>
    !(node.pass_id != passId || is_disconnected node || decide (nodes.length ≤ idx))

/-- The worker of `lineConstraintDispatch`, numbering the buffer cells
from `i`: every thread evaluates its guard and neighbor reads against the
pre-dispatch buffer `nodes0` (the two-color partition makes those reads
race-free) and writes only its own `position`; `upd` abstracts the
floating-point constraint arithmetic. -/
def dispatchFrom {α : Type} (upd : List (Node α) → Nat → α) (nodes0 : List (Node α))
    (passId : Nat) : Nat → List (Node α) → List (Node α)
  | _, [] => []
  | i, n :: rest =>
    (if lineConstraintWrites nodes0 passId i then { n with position := upd nodes0 i }
     else n) :: dispatchFrom upd nodes0 passId (i + 1) rest

/-- One full `line_constraint_updates` dispatch. -/
def lineConstraintDispatch {α : Type} (upd : List (Node α) → Nat → α)
    (nodes : List (Node α)) (passId : Nat) : List (Node α) :=
  dispatchFrom upd nodes passId 0 nodes

/-- One tick of the two-phase alternating sub-sequence (src/simulate.ts
lines 44-62, examples/wormlike-chain/index.ts lines 164-177): the
scheduler writes phase selector 0 into the shared uniform, dispatches the
update program, then writes selector 1 and dispatches it again; the
selector reaches the guard as `passId`. -/
def twoPhaseTick {α : Type} (upd : List (Node α) → Nat → α)
    (nodes : List (Node α)) : List (Node α) :=
  lineConstraintDispatch upd (lineConstraintDispatch upd nodes 0) 1

/-- Whether the element `idx` performs its constraint write in phase `p`
of one tick (phase 1 runs on the buffer phase 0 produced). -/
def updatedInPhase {α : Type} (upd : List (Node α) → Nat → α)
    (nodes : List (Node α)) (p idx : Nat) : Bool :=
  if p = 0 then lineConstraintWrites nodes 0 idx
  else lineConstraintWrites (lineConstraintDispatch upd nodes 0) 1 idx

/-- Cell `j` of a dispatch: its own guarded write, fields other than
`position` untouched. -/
theorem dispatchFrom_get? {α : Type} (upd : List (Node α) → Nat → α)
    (nodes0 : List (Node α)) (passId : Nat) :
    ∀ (l : List (Node α)) (i j : Nat),
      (dispatchFrom upd nodes0 passId i l).get? j =
        (l.get? j).map (fun n =>
          if lineConstraintWrites nodes0 passId (i + j) then
            { n with position := upd nodes0 (i + j) }
          else n) := by
  intro l
  induction l with
  | nil => intro i j; simp [dispatchFrom]
  | cons n rest ih =>
    intro i j
    cases j with
    | zero => simp [dispatchFrom]
    | succ j' =>
      simp only [dispatchFrom, List.get?_cons_succ, ih (i + 1) j']
      have : i + 1 + j' = i + (j' + 1) := by omega
      rw [this]

/-- A dispatch preserves the buffer length. -/
theorem dispatchFrom_length {α : Type} (upd : List (Node α) → Nat → α)
    (nodes0 : List (Node α)) (passId : Nat) :
    ∀ (l : List (Node α)) (i : Nat),
      (dispatchFrom upd nodes0 passId i l).length = l.length := by
  intro l
  induction l with
  | nil => intro i; rfl
  | cons n rest ih => intro i; simp [dispatchFrom, ih]

/-- The write guard only reads fields a dispatch never writes, so it is
invariant under dispatches. -/
theorem lineConstraintWrites_dispatch {α : Type} (upd : List (Node α) → Nat → α)
    (nodes : List (Node α)) (p q idx : Nat) :
    lineConstraintWrites (lineConstraintDispatch upd nodes q) p idx =
      lineConstraintWrites nodes p idx := by
  unfold lineConstraintWrites lineConstraintDispatch
  rw [dispatchFrom_length, dispatchFrom_get?]
  cases h : nodes.get? idx with
  | none => rfl
  | some node =>
    simp only [Option.map]
    split <;> rfl

end Chain

open Chain in
/-- C5: over one full two-phase tick — selector 0 written and dispatched,
then selector 1 written and dispatched — an element of a linked structure
colored by index parity is updated exactly in the phase equal to its
stored color: for p ∈ {0,1} element idx writes in phase p iff
idx % 2 = p, hence in exactly one of the two phases and never in both. -/
theorem c5_two_phase_partition :
    ∀ (α : Type) (upd : List (Node α) → Nat → α) (nodes : List (Node α)),
      (∀ i (h : i < nodes.length), (nodes.get ⟨i, h⟩).pass_id = i % 2) →
      (∀ i (h : i < nodes.length), is_disconnected (nodes.get ⟨i, h⟩) = false) →
      ∀ idx (hidx : idx < nodes.length) (p : Nat), p ≤ 1 →
        (updatedInPhase upd nodes p idx = true ↔ idx % 2 = p) := by
  intro α upd nodes hcolor hconn idx hidx p hp
  have hget : nodes.get? idx = some (nodes.get ⟨idx, hidx⟩) := List.get?_eq_get hidx
  have hpass := hcolor idx hidx
  have hdisc := hconn idx hidx
  have hlen : ¬(nodes.length ≤ idx) := by omega
  rw [List.get_eq_getElem] at hpass hdisc
  interval_cases p
  · simp only [updatedInPhase, if_pos rfl, lineConstraintWrites, hget]
    simp [hpass, hdisc, hlen]
  · rw [show updatedInPhase upd nodes 1 idx =
        lineConstraintWrites (lineConstraintDispatch upd nodes 0) 1 idx from rfl,
      lineConstraintWrites_dispatch]
    simp only [lineConstraintWrites, hget]
    simp [hpass, hdisc, hlen]

namespace Chain

/-- The node written by thread `idx` of `initialize_chains`
(compute.wgsl lines 76-103) into its own slot, including the in-thread
overwrite `nodes[0].head = 0` that cuts the ring at 0; `pos` abstracts
the floating-point circle position and `z` the zero vector. -/
def initNode (α : Type) (count idx : Nat) (pos : Nat → α) (z : α) : Node α :=
  { id := idx
    pass_id := idx % 2
    position := pos idx
    force := z
    tail := (idx + count - 1) % count
    head := if idx = 0 then 0 else (idx + count + 1) % count }

/-- Thread `idx` of `initialize_chains` acting on the buffer: write the
own slot, and for thread 0 additionally write `nodes[1].tail = 1`. -/
def initInv {α : Type} (count : Nat) (pos : Nat → α) (z : α)
    (buf : List (Node α)) (idx : Nat) : List (Node α) :=
  let buf1 := buf.set idx (initNode α count idx pos z)
  if idx = 0 then
    match buf1.get? 1 with
    | some n => buf1.set 1 { n with tail := 1 }
    | none => buf1
  else buf1

/-- The `initialize_chains` dispatch over a zero-filled buffer of `count`
nodes, modeled in ascending thread order (threads with `idx >= count`
return before writing).  The only contested location is `nodes[1].tail`
— thread 0 writes 1, thread 1 writes 0 — and under either outcome the
facts used below (colors `idx % 2`, no disconnected node for a count of
at least 2) are the same. -/
def initializeChains (α : Type) (count : Nat) (pos : Nat → α) (z : α) : List (Node α) :=
  (List.range count).foldl (initInv count pos z)
    (List.replicate count
      { id := 0, pass_id := 0, position := z, force := z, tail := 0, head := 0 })

/-- The synthetic ring of 8 elements alternately colored 0/1. -/
def ring8 : List (Node Unit) := initializeChains Unit 8 (fun _ => ()) ()

end Chain

open Chain in
/-- C5, witness: the two-phase partition theorem applied to the synthetic
8-ring initialized by `initialize_chains` — element 4 (color 0) writes in
phase 0 and not in phase 1. -/
theorem c5_two_phase_partition_witness :
    (∀ i (h : i < ring8.length), (ring8.get ⟨i, h⟩).pass_id = i % 2) ∧
    (∀ i (h : i < ring8.length), is_disconnected (ring8.get ⟨i, h⟩) = false) ∧
    updatedInPhase (fun _ _ => ()) ring8 0 4 = true ∧
    updatedInPhase (fun _ _ => ()) ring8 1 4 = false := by
  have hcolor : ∀ i (h : i < ring8.length), (ring8.get ⟨i, h⟩).pass_id = i % 2 := by decide
  have hconn : ∀ i (h : i < ring8.length), is_disconnected (ring8.get ⟨i, h⟩) = false := by
    decide
  have h := c5_two_phase_partition Unit (fun _ _ => ()) ring8 hcolor hconn
  refine ⟨hcolor, hconn, (h 4 (by decide) 0 (by decide)).mpr (by decide), ?_⟩
  cases hb : updatedInPhase (fun _ _ => ()) ring8 1 4 with
  | false => rfl
  | true =>
    have := (h 4 (by decide) 1 (by decide)).mp hb
    omega

namespace Wgsl

/-- DataView little-endian write of the `width`-byte pattern `w` at
`base` into a byte store: the stores of `setUint32`, `setInt32`,
`setFloat32` and `setFloat16` all write the bytes of the value's 32- or
16-bit pattern, least significant byte first.  Component values are
modeled as these bit patterns: the claim's representable values (exact
32-bit integers, single-precision floats) are exactly the ones in
bijection with their patterns at the DataView boundary. -/
def writeWord (s : Nat → Nat) (base width w : Nat) : Nat → Nat :=
  fun a => if base ≤ a ∧ a < base + width then w / 256 ^ (a - base) % 256 else s a

/-- DataView little-endian read of `width` bytes at `base`. -/
def readWord (s : Nat → Nat) : Nat → Nat → Nat
  | _, 0 => 0
  | base, width + 1 => s base + 256 * readWord s (base + 1) width

/-- `setComponent` of the dynamic setter (src/wgsl.ts lines 315-341): the
component's byte offset is `offset + index * baseTypeSize` and the
component pattern is stored little-endian there. -/
def setComponent (s : Nat → Nat) (offset baseTypeSize index w : Nat) : Nat → Nat :=
  writeWord s (offset + index * baseTypeSize) baseTypeSize w

/-- `getComponent` of the dynamic getter (src/wgsl.ts lines 344-367). -/
def getComponent (s : Nat → Nat) (offset baseTypeSize index : Nat) : Nat :=
  readWord s (offset + index * baseTypeSize) baseTypeSize

/-- The setter's component loop from `index` upward:
`for i: setComponent(i, value[i])`. -/
def setComponents (s : Nat → Nat) (offset baseTypeSize index : Nat) :
    List Nat → (Nat → Nat)
  | [] => s
  | w :: ws =>
    setComponents (setComponent s offset baseTypeSize index w) offset baseTypeSize
      (index + 1) ws

/-- The dynamic setter of a field (src/wgsl.ts lines 384-403): store each
listed component in turn (a scalar is the singleton list). -/
def setField (s : Nat → Nat) (offset baseTypeSize : Nat) (values : List Nat) : Nat → Nat :=
  setComponents s offset baseTypeSize 0 values

/-- The dynamic getter of a field (src/wgsl.ts lines 372-383): read each
component (a scalar is the singleton list). -/
def getField (s : Nat → Nat) (offset baseTypeSize componentCount : Nat) : List Nat :=
  (List.range componentCount).map (getComponent s offset baseTypeSize)

/-- A descriptor the type factories can build: positive alignment and
component width, components within the byte size. -/
def WellFormed (t : WgslTypeDescriptor) : Prop :=
  0 < t.alignment ∧ 0 < t.baseTypeSize ∧
    t.componentCount * t.baseTypeSize ≤ t.byteSize

/-- Reading depends only on the bytes of the read range. -/
theorem readWord_congr (s1 s2 : Nat → Nat) :
    ∀ (width base : Nat), (∀ a, base ≤ a → a < base + width → s1 a = s2 a) →
      readWord s1 base width = readWord s2 base width := by
  intro width
  induction width with
  | zero => intro base _; rfl
  | succ width ih =>
    intro base h
    simp only [readWord]
    rw [h base (le_refl _) (by omega), ih (base + 1) (fun a ha1 ha2 => h a (by omega) (by omega))]

/-- A write leaves the bytes outside its range untouched. -/
theorem writeWord_outside (s : Nat → Nat) (base width w a : Nat)
    (h : a < base ∨ base + width ≤ a) : writeWord s base width w a = s a := by
  unfold writeWord
  rw [if_neg (by omega)]

/-- Little-endian read-back of a little-endian write. -/
theorem readWord_writeWord (s : Nat → Nat) :
    ∀ (width base w : Nat),
      readWord (writeWord s base width w) base width = w % 256 ^ width := by
  intro width
  induction width with
  | zero => intro base w; simp [readWord, Nat.mod_one]
  | succ width ih =>
    intro base w
    simp only [readWord]
    have hbase : writeWord s base (width + 1) w base = w % 256 := by
      unfold writeWord
      rw [if_pos (by omega)]
      simp
    have hinner : readWord (writeWord s base (width + 1) w) (base + 1) width =
        readWord (writeWord s (base + 1) width (w / 256)) (base + 1) width := by
      apply readWord_congr
      intro a ha1 ha2
      unfold writeWord
      rw [if_pos (by omega), if_pos (by omega)]
      have h1 : a - base = (a - (base + 1)) + 1 := by omega
      rw [h1, Nat.pow_succ']
      rw [← Nat.div_div_eq_div_mul]
    rw [hbase, hinner, ih]
    rw [pow_succ']
    exact (Nat.mod_mul).symm

/-- The component loop leaves every byte outside its total range
untouched. -/
theorem setComponents_outside (offset bts : Nat) :
    ∀ (values : List Nat) (s : Nat → Nat) (index a : Nat),
      (a < offset + index * bts ∨ offset + (index + values.length) * bts ≤ a) →
      setComponents s offset bts index values a = s a := by
  intro values
  induction values with
  | nil => intro s index a _; rfl
  | cons w ws ih =>
    intro s index a h
    have e1 : (index + (ws.length + 1)) * bts = (index + 1 + ws.length) * bts := by
      rw [show index + (ws.length + 1) = index + 1 + ws.length from by omega]
    have e2 : (index + 1 + ws.length) * bts = (index + 1) * bts + ws.length * bts :=
      Nat.add_mul _ _ _
    have e3 : (index + 1) * bts = index * bts + bts := Nat.succ_mul _ _
    simp only [setComponents]
    rw [ih _ (index + 1) a (by simp only [List.length_cons] at h; omega)]
    apply writeWord_outside
    simp only [List.length_cons] at h
    omega

/-- Reading component `index + j` back after the loop stored `values`
from `index` returns the `j`-th value (component patterns within their
width). -/
theorem getComponent_setComponents (offset bts : Nat) :
    ∀ (values : List Nat) (s : Nat → Nat) (index j : Nat), j < values.length →
      (∀ w ∈ values, w < 256 ^ bts) →
      getComponent (setComponents s offset bts index values) offset bts (index + j) =
        values.getD j 0 := by
  intro values
  induction values with
  | nil => intro s index j hj _; simp at hj
  | cons w ws ih =>
    intro s index j hj hw
    cases j with
    | zero =>
      simp only [setComponents, List.getD_cons_zero, Nat.add_zero]
      unfold getComponent
      have e3 : (index + 1) * bts = index * bts + bts := Nat.succ_mul _ _
      rw [readWord_congr _ (setComponent s offset bts index w) bts (offset + index * bts)
        (fun a ha1 ha2 => setComponents_outside offset bts ws _ (index + 1) a (by omega))]
      unfold setComponent
      rw [readWord_writeWord]
      exact Nat.mod_eq_of_lt (hw w (List.mem_cons_self _ _))
    | succ j' =>
      simp only [setComponents, List.getD_cons_succ]
      rw [show index + (j' + 1) = (index + 1) + j' from by omega]
      exact ih _ (index + 1) j' (by simpa using hj)
        (fun x hx => hw x (List.mem_cons_of_mem _ hx))

end Wgsl

namespace Wgsl

/-- Round trip of one field: writing a component list of the field's
length and reading the field back returns the same list. -/
theorem getField_setField (s : Nat → Nat) (offset bts : Nat) (values : List Nat)
    (hw : ∀ w ∈ values, w < 256 ^ bts) :
    getField (setField s offset bts values) offset bts values.length = values := by
  unfold getField setField
  apply List.ext_getElem (by simp)
  intro i h1 h2
  simp only [List.getElem_map, List.getElem_range]
  have h := getComponent_setComponents offset bts values s 0 i (by simpa using h1) hw
  rw [Nat.zero_add] at h
  rw [h]
  exact List.getD_eq_getElem values 0 h2

/-- Frame of one field write: a read of a byte-disjoint field is
unchanged. -/
theorem getField_setField_frame (s : Nat → Nat) (off1 bts1 : Nat) (values : List Nat)
    (off2 bts2 cc2 : Nat)
    (hdisj : off1 + values.length * bts1 ≤ off2 ∨ off2 + cc2 * bts2 ≤ off1) :
    getField (setField s off1 bts1 values) off2 bts2 cc2 =
      getField s off2 bts2 cc2 := by
  unfold getField setField
  apply List.ext_getElem (by simp)
  intro i h1 h2
  simp only [List.getElem_map, List.getElem_range]
  have hi : i < cc2 := by simpa using h1
  unfold getComponent
  apply readWord_congr
  intro a ha1 ha2
  apply setComponents_outside
  have e0 : (0 + values.length) * bts1 = values.length * bts1 := by rw [Nat.zero_add]
  have e1 : (i + 1) * bts2 ≤ cc2 * bts2 := Nat.mul_le_mul_right _ (by omega)
  have e2 : (i + 1) * bts2 = i * bts2 + bts2 := Nat.succ_mul _ _
  omega

end Wgsl

open Wgsl in
/-- C10: over the host-side byte mirror laid out by the engine for
well-formed field descriptors, the dynamically defined accessors satisfy
the round trip — after setting field i to a representable value (a
component-pattern list of the field's component count), reading field i
returns that value — and the frame property — reading any other field j
is unchanged by the write.  The offsets used are the engine's
(`computeLayout` projects to the same spec offsets). -/
theorem c10_accessor_roundtrip_frame :
    ∀ (defn : List (String × WgslTypeDescriptor)),
      (∀ f ∈ defn, WellFormed f.2) →
      ∀ i j, i < defn.length → j < defn.length →
      ∀ (values : List Nat) (s : Nat → Nat),
        values.length = (defn.getD i ("", f32)).2.componentCount →
        (∀ w ∈ values, w < 256 ^ (defn.getD i ("", f32)).2.baseTypeSize) →
        getField
            (setField s ((specOffsets defn 0).1.getD i ("", 0)).2
              (defn.getD i ("", f32)).2.baseTypeSize values)
            ((specOffsets defn 0).1.getD i ("", 0)).2
            (defn.getD i ("", f32)).2.baseTypeSize
            (defn.getD i ("", f32)).2.componentCount = values ∧
        (i ≠ j →
          getField
              (setField s ((specOffsets defn 0).1.getD i ("", 0)).2
                (defn.getD i ("", f32)).2.baseTypeSize values)
              ((specOffsets defn 0).1.getD j ("", 0)).2
              (defn.getD j ("", f32)).2.baseTypeSize
              (defn.getD j ("", f32)).2.componentCount =
            getField s ((specOffsets defn 0).1.getD j ("", 0)).2
              (defn.getD j ("", f32)).2.baseTypeSize
              (defn.getD j ("", f32)).2.componentCount) ∧
        (computeLayout defn).offsets =
          (specOffsets defn 0).1.map (fun p => (p.1, JsNum.num p.2)) := by
  intro defn hwf i j hi hj values s hlen hw
  have hpos : ∀ f ∈ defn, 0 < f.2.alignment := fun f hf => (hwf f hf).1
  have hwfI : WellFormed (defn.getD i ("", f32)).2 :=
    hwf _ (getD_mem defn i ("", f32) hi)
  have hwfJ : WellFormed (defn.getD j ("", f32)).2 :=
    hwf _ (getD_mem defn j ("", f32) hj)
  refine ⟨?_, ?_, ?_⟩
  · rw [← hlen]
    exact getField_setField s _ _ values hw
  · intro hne
    apply getField_setField_frame
    have hccI : values.length * (defn.getD i ("", f32)).2.baseTypeSize ≤
        (defn.getD i ("", f32)).2.byteSize := by
      rw [hlen]; exact hwfI.2.2
    have hccJ : (defn.getD j ("", f32)).2.componentCount *
        (defn.getD j ("", f32)).2.baseTypeSize ≤ (defn.getD j ("", f32)).2.byteSize :=
      hwfJ.2.2
    rcases Nat.lt_or_ge i j with hij | hij
    · have hord := specOffsets_ordered defn 0 hpos i j hij hj
      omega
    · have hord := specOffsets_ordered defn 0 hpos j i (by omega) hi
      omega
  · rw [computeLayout_eq_spec defn hpos]

open Wgsl in
/-- C10, witness: on the interactions struct, setting `position`
(vec2<f32>, offset 0) to the patterns [5, 7] reads back [5, 7] and leaves
`size` (f32, offset 8) reading the untouched store. -/
theorem c10_accessor_roundtrip_frame_witness :
    (∀ f ∈ interactionsDef, WellFormed f.2) ∧
    getField (setField (fun _ => 0) 0 4 [5, 7]) 0 4 2 = [5, 7] ∧
    getField (setField (fun _ => 0) 0 4 [5, 7]) 8 4 1 = getField (fun _ => 0) 8 4 1 := by
  have hwf : ∀ f ∈ interactionsDef, WellFormed f.2 := by
    intro f hf
    fin_cases hf <;> exact ⟨by decide, by decide, by decide⟩
  have h := c10_accessor_roundtrip_frame interactionsDef hwf 0 1 (by decide) (by decide)
    [5, 7] (fun _ => 0) (by decide) (by decide)
  exact ⟨hwf, h.1, h.2.1 (by decide)⟩
